import Mathlib

/-!
Verification development for the vector retrieval subsystem of the
marwin_data_assistant repository (src/vector_store.py, src/load_vector_store.py,
src/embedding_utils.py).

Vectors are modelled as lists of rationals (the code stores float32 vectors;
the claims under study concern ordering, alignment and error behavior, not
rounding, so exact arithmetic is the faithful abstraction).  The FAISS
IndexFlatL2 library calls (`faiss.IndexFlatL2`, `index.add`, `index.search`)
are not part of the repository; they are modelled from the specification of
the Vector Index Store (exact linear scan over squared Euclidean distance,
k smallest ascending, ties broken by ascending position) together with the
documented FAISS behavior of padding the output with label -1 and an FLT_MAX
distance when k exceeds the number of stored vectors, and of asserting on a
query of the wrong dimensionality or a non-positive k.
-/

namespace Marwin

/-- An embedding vector: a row of the 2D float array the code passes around. -/
abbrev Vec := List ℚ

/-- Model of a `faiss.IndexFlatL2` object: the dimensionality `d` fixed at
construction (`faiss.IndexFlatL2(dim)`) and the stored vectors in insertion
order (`index.add`).  A vector's 0-based position is its only identity. -/
structure FaissIndex where
  d : Nat
  vecs : List Vec
deriving DecidableEq, Repr

/-- Errors surfaced by the modelled Python code.  The first group are the
exceptions the code under src/ can actually raise (built-in Python and
library errors); the second group is the named error taxonomy of the
specification (`EmptyInputError`, `DimensionMismatchError`, `InvalidKError`,
`BundleNotFoundError`, `CorruptBundleError`), included so that claims
mentioning those names can be stated; no modelled function produces them. -/
inductive PyError where
  | indexError
  | valueError
  | assertionError
  | keyError
  | fileNotFoundError
  | unpicklingError
  | ioError
  | emptyInputError
  | dimensionMismatchError
  | invalidKError
  | bundleNotFoundError
  | corruptBundleError
deriving DecidableEq, Repr

instance {ε α : Type} [DecidableEq ε] [DecidableEq α] :
    DecidableEq (Except ε α) := fun a b =>
  match a, b with
  | .error e1, .error e2 =>
    if h : e1 = e2 then .isTrue (by rw [h]) else .isFalse (by simp [h])
  | .error _, .ok _ => .isFalse (by simp)
  | .ok _, .error _ => .isFalse (by simp)
  | .ok v1, .ok v2 =>
    if h : v1 = v2 then .isTrue (by rw [h]) else .isFalse (by simp [h])

/-- Squared Euclidean distance between two vectors, the IndexFlatL2 metric
(exact under the intended invariant that both lists have length `d`). -/
def sqDist (q v : Vec) : ℚ :=
  ((q.zip v).map (fun p => (p.1 - p.2) * (p.1 - p.2))).sum

/-- The linear scan: pair every stored vector with its squared distance to
the query, positions counted from `i`. -/
def scoredFrom (q : Vec) : Nat → List Vec → List (ℚ × Nat)
  | _, [] => []
  | i, v :: vs => (sqDist q v, i) :: scoredFrom q (i + 1) vs

/-- Ranking order on (distance, position) pairs: smaller distance first,
ties broken by ascending position. -/
def rankLe (a b : ℚ × Nat) : Prop :=
  a.1 < b.1 ∨ (a.1 = b.1 ∧ a.2 ≤ b.2)

instance : DecidableRel rankLe := fun a b => by
  unfold rankLe; exact inferInstance

instance : IsTotal (ℚ × Nat) rankLe := by
  constructor
  intro a b
  rcases lt_trichotomy a.1 b.1 with h | h | h
  · exact Or.inl (Or.inl h)
  · rcases Nat.le_total a.2 b.2 with h2 | h2
    · exact Or.inl (Or.inr ⟨h, h2⟩)
    · exact Or.inr (Or.inr ⟨h.symm, h2⟩)
  · exact Or.inr (Or.inl h)

instance : IsTrans (ℚ × Nat) rankLe := by
  constructor
  intro a b c hab hbc
  rcases hab with h1 | ⟨h1, h1'⟩
  · rcases hbc with h2 | ⟨h2, _⟩
    · exact Or.inl (h1.trans h2)
    · exact Or.inl (h2 ▸ h1)
  · rcases hbc with h2 | ⟨h2, h2'⟩
    · exact Or.inl (h1 ▸ h2)
    · exact Or.inr ⟨h1.trans h2, h1'.trans h2'⟩

/-- The distance FAISS reports for padding entries when k exceeds the number
of stored vectors: FLT_MAX, the largest finite float32 (2^128 - 2^104). -/
def sentinelDist : ℚ := 340282346638528859811704183484516925440

/-- The ranked scan the FAISS search produces before truncation: every
stored vector scored against the query, ordered by ascending distance with
ties broken by ascending position. -/
def sortedScored (q : Vec) (vecs : List Vec) : List (ℚ × Nat) :=
  List.insertionSort rankLe (scoredFrom q 0 vecs)

/-- Result rows of `index.search(x, k)` for one query: the k best
(distance, label) pairs, ranked by ascending distance with ties broken by
ascending position; when k exceeds the number of stored vectors the output
is padded to length k with (FLT_MAX, -1) entries, as FAISS documents. -/
def faissTopK (index : FaissIndex) (q : Vec) (k : Nat) : List (ℚ × Int) :=
  ((sortedScored q index.vecs).take k).map (fun pr => (pr.1, (pr.2 : Int)))
    ++ List.replicate (k - (sortedScored q index.vecs).length)
      (sentinelDist, (-1 : Int))

/-- Model of `index.search(np.array([q_vec]), k)`: the FAISS Python wrapper
asserts that the query width equals the index dimensionality and that k is
positive, then returns the ranked rows. -/
def faissSearch (index : FaissIndex) (q : Vec) (k : Nat) :
    Except PyError (List (ℚ × Int)) :=
  if q.length ≠ index.d then .error .assertionError
  else if k = 0 then .error .assertionError
  else .ok (faissTopK index q k)

/-- Python list subscript semantics, `xs[i]`: non-negative indices from the
front, negative indices from the back; out of range raises IndexError,
modelled as `none`.  Pandas `.iloc[i]` on a default-index frame behaves the
same way. -/
def pyGet (xs : List α) (i : Int) : Option α :=
  if 0 ≤ i then xs[i.toNat]?
  else if 0 ≤ (xs.length : Int) + i then xs[((xs.length : Int) + i).toNat]?
  else none

/-- The dict built for each hit by `semantic_search` (load_vector_store.py,
lines 63-68): distance, doc text, table name, column name. -/
structure SearchResult where
  distance : ℚ
  doc : String
  table : String
  column : String
deriving DecidableEq, Repr

/-- The join loop of `semantic_search` (load_vector_store.py, lines 60-68):
for each (dist, idx) pair from FAISS, `table, column = paths[idx]` then
`docs[idx]`, appending one result dict; a subscript out of range raises
IndexError at that element. -/
def joinResults (docs : List String) (paths : List (String × String)) :
    List (ℚ × Int) → Except PyError (List SearchResult)
  | [] => .ok []
  | (dist, idx) :: rest =>
    match pyGet paths idx with
    | none => .error .indexError
    | some tc =>
      match pyGet docs idx with
      | none => .error .indexError
      | some d =>
        match joinResults docs paths rest with
        | .error e => .error e
        | .ok rs => .ok ({ distance := dist, doc := d,
                           table := tc.1, column := tc.2 } :: rs)

/-- Model of `semantic_search(query, k, index, docs, paths)`
(load_vector_store.py, lines 56-69), starting from the already-embedded
query vector `q_vec = embed([query])[0]` (the embedding call is the external
collaborator).  Runs the FAISS search and joins each (distance, position)
pair with `docs[idx]` and `paths[idx]`. -/
def semanticSearch (qvec : Vec) (k : Nat) (index : FaissIndex)
    (docs : List String) (paths : List (String × String)) :
    Except PyError (List SearchResult) :=
  match faissSearch index qvec k with
  | .error e => .error e
  | .ok pairs => joinResults docs paths pairs

/-- Model of `build_faiss_index(embeddings)` (vector_store.py, lines 17-31).
The embeddings arrive as `np.array(vectors)` built from a list of rows: an
empty list yields a 1-D array, so `embeddings.shape[1]` raises IndexError;
a ragged list cannot form a 2-D float array (and `index.add` asserts the
row width), surfacing as ValueError; otherwise `dim = embeddings.shape[1]`,
`faiss.IndexFlatL2(dim)` and `index.add(embeddings)` store every row in
input order.  The function itself performs no explicit validation. -/
def buildFaissIndex (embeddings : List Vec) : Except PyError FaissIndex :=
  match embeddings with
  | [] => .error .indexError
  | v :: vs =>
    if (v :: vs).all (fun w => w.length == v.length)
    then .ok { d := v.length, vecs := v :: vs }
    else .error .valueError

/-- The metadata DataFrame `df_metadata`: columns doc, TABLE_NAME,
COLUMN_NAME, stored row-aligned with the index.  `to_dict(orient="list")`
turns it into exactly these three column lists and `pd.DataFrame` of such a
dict rebuilds it, so the structure doubles as the pickled column dict. -/
structure MetaTable where
  doc : List String
  tableName : List String
  columnName : List String
deriving DecidableEq, Repr

/-- What a pickle file at some path can hold, as far as `load_index` can
tell: a parseable dict with both required keys, a parseable dict missing
one of them, or bytes `pickle.load` cannot parse. -/
inductive PickleFile where
  | valid (index : FaissIndex) (tbl : MetaTable)
  | missingIndexKey (tbl : MetaTable)
  | missingMetadataKey (index : FaissIndex)
  | unparseable
deriving DecidableEq

/-- A file system: which pickle file, if any, sits at each path. -/
abbrev FileSys := String → Option PickleFile

/-- Model of `load_index(path)` (load_vector_store.py, lines 37-50).
`open(path, "rb")` raises FileNotFoundError for a missing path;
`pickle.load` raises UnpicklingError on unparseable bytes; `data["index"]`
or `data["metadata"]` raises KeyError when absent;
`pd.DataFrame(data["metadata"])` raises ValueError when the column lists
have unequal lengths.  No comparison of vector count with metadata row
count is performed anywhere. -/
def loadIndex (fs : FileSys) (path : String) :
    Except PyError (MetaTable × FaissIndex) :=
  match fs path with
  | none => .error .fileNotFoundError
  | some .unparseable => .error .unpicklingError
  | some (.missingIndexKey _) => .error .keyError
  | some (.missingMetadataKey _) => .error .keyError
  | some (.valid idx tbl) =>
    if tbl.tableName.length = tbl.doc.length ∧
       tbl.columnName.length = tbl.doc.length
    then .ok (tbl, idx)
    else .error .valueError

/-- Model of `save_index(index, df_metadata, filepath)` (vector_store.py,
lines 34-49) at the pickle level: the destination path now holds a dict
with the index object and the metadata column dict, other paths are
untouched. -/
def saveIndex (index : FaissIndex) (tbl : MetaTable) (filepath : String)
    (fs : FileSys) : FileSys :=
  fun p => if p = filepath then some (.valid index tbl) else fs p

/-- Destination file content at the byte level, for the atomicity claim:
no file, a complete pickled bundle, or the first `n` chunks of one. -/
inductive DestContent where
  | absent
  | bundle (index : FaissIndex) (tbl : MetaTable)
  | truncatedBytes (n : Nat)
deriving DecidableEq

/-- Byte-level run of `save_index`: `open(filepath, "wb")` truncates the
destination at once, discarding `old`, then `pickle.dump` streams the
bundle; `failAt = some n` models an I/O or serialization failure after `n`
chunks, leaving the truncated partial write visible at the destination. -/
def saveIndexRun (index : FaissIndex) (tbl : MetaTable) (old : DestContent)
    (failAt : Option Nat) : Except PyError Unit × DestContent :=
  match failAt with
  | none => (.ok (), .bundle index tbl)
  | some n => (.error .ioError, .truncatedBytes n)

/-- The metadata record at position `pr.2` of the docs/paths columns, paired
with the distance `pr.1`: what the join loop produces for an in-range
position. -/
def rowJoin (docs : List String) (paths : List (String × String))
    (pr : ℚ × Int) : SearchResult :=
  { distance := pr.1, doc := docs.getD pr.2.toNat "",
    table := (paths.getD pr.2.toNat ("", "")).1,
    column := (paths.getD pr.2.toNat ("", "")).2 }

/-- The record the join loop produces for a FAISS padding entry: position
-1 resolves, by Python negative indexing, to the last row. -/
def padRow (docs : List String) (paths : List (String × String)) :
    SearchResult :=
  { distance := sentinelDist, doc := docs.getD (docs.length - 1) "",
    table := (paths.getD (paths.length - 1) ("", "")).1,
    column := (paths.getD (paths.length - 1) ("", "")).2 }

/-- The three-vector index of the specification's scenario:
vectors [[0,0],[1,0],[0,5]], dimensionality 2. -/
def exIndex3 : FaissIndex := { d := 2, vecs := [[0, 0], [1, 0], [0, 5]] }

/-- Doc column aligned with `exIndex3`. -/
def exDocs3 : List String := ["A", "B", "C"]

/-- Table/column pairs aligned with `exIndex3`. -/
def exPaths3 : List (String × String) :=
  [("T1", "CL1"), ("T2", "CL2"), ("T3", "CL3")]

/-- A one-vector index of dimensionality 1. -/
def exIndex1 : FaissIndex := { d := 1, vecs := [[0]] }

/-- Doc column aligned with `exIndex1`. -/
def exDocs1 : List String := ["A"]

/-- Table/column pairs aligned with `exIndex1`. -/
def exPaths1 : List (String × String) := [("T", "CL")]

/-- A five-vector index of dimensionality 1. -/
def exIndex5 : FaissIndex := { d := 1, vecs := [[0], [1], [2], [3], [4]] }

/-- A metadata table with four rows. -/
def exTable4 : MetaTable :=
  { doc := ["a", "b", "c", "d"], tableName := ["t1", "t2", "t3", "t4"],
    columnName := ["c1", "c2", "c3", "c4"] }

/-- A metadata table with three rows, row-aligned with `exIndex3`. -/
def exTable3 : MetaTable :=
  { doc := ["A", "B", "C"], tableName := ["T1", "T2", "T3"],
    columnName := ["CL1", "CL2", "CL3"] }

/-- A file system holding, at the default path, a bundle whose vector count
(5) differs from its metadata row count (4). -/
def exFs54 : FileSys :=
  fun p => if p = "vector_index.faiss" then some (.valid exIndex5 exTable4)
    else none

/-- The empty file system. -/
def exFsEmpty : FileSys := fun _ => none

theorem scoredFrom_length (q : Vec) (i : Nat) (vs : List Vec) :
    (scoredFrom q i vs).length = vs.length := by
  induction vs generalizing i with
  | nil => rfl
  | cons v vs ih => simp [scoredFrom, ih]

theorem scoredFrom_mem (q : Vec) (i : Nat) (vs : List Vec) (pr : ℚ × Nat)
    (h : pr ∈ scoredFrom q i vs) :
    i ≤ pr.2 ∧ pr.2 < i + vs.length ∧
      pr.1 = sqDist q (vs.getD (pr.2 - i) []) := by
  induction vs generalizing i with
  | nil => simp [scoredFrom] at h
  | cons v vs ih =>
    simp only [scoredFrom, List.mem_cons] at h
    rcases h with h | h
    · subst h
      refine ⟨le_refl _, by simp, ?_⟩
      simp
    · obtain ⟨h1, h2, h3⟩ := ih (i + 1) h
      refine ⟨by omega, by simp only [List.length_cons]; omega, ?_⟩
      have hix : pr.2 - i = (pr.2 - (i + 1)) + 1 := by omega
      rw [hix, List.getD_cons_succ]
      exact h3

theorem scoredFrom_pos_lt (q : Vec) (i : Nat) (vs : List Vec) :
    (scoredFrom q i vs).Pairwise (fun a b => a.2 < b.2) := by
  induction vs generalizing i with
  | nil => exact List.Pairwise.nil
  | cons v vs ih =>
    refine List.Pairwise.cons ?_ (ih (i + 1))
    intro b hb
    have := (scoredFrom_mem q (i + 1) vs b hb).1
    simpa using by omega

theorem sortedScored_perm (q : Vec) (vecs : List Vec) :
    List.Perm (sortedScored q vecs) (scoredFrom q 0 vecs) :=
  List.perm_insertionSort rankLe _

theorem sortedScored_length (q : Vec) (vecs : List Vec) :
    (sortedScored q vecs).length = vecs.length := by
  rw [(sortedScored_perm q vecs).length_eq, scoredFrom_length]

theorem sortedScored_sorted (q : Vec) (vecs : List Vec) :
    List.Sorted rankLe (sortedScored q vecs) :=
  List.sorted_insertionSort rankLe _

theorem sortedScored_mem (q : Vec) (vecs : List Vec) (pr : ℚ × Nat)
    (h : pr ∈ sortedScored q vecs) :
    pr.2 < vecs.length ∧ pr.1 = sqDist q (vecs.getD pr.2 []) := by
  have h' := (sortedScored_perm q vecs).mem_iff.mp h
  obtain ⟨_, h2, h3⟩ := scoredFrom_mem q 0 vecs pr h'
  exact ⟨by simpa using h2, by simpa using h3⟩

theorem sortedScored_pos_ne (q : Vec) (vecs : List Vec) :
    (sortedScored q vecs).Pairwise (fun a b => a.2 ≠ b.2) := by
  have hlt := scoredFrom_pos_lt q 0 vecs
  have hne : (scoredFrom q 0 vecs).Pairwise (fun a b => a.2 ≠ b.2) :=
    hlt.imp (fun h => Nat.ne_of_lt h)
  exact ((sortedScored_perm q vecs).pairwise_iff
    (fun h => Ne.symm h)).mpr hne

theorem sortedScored_pairwise_strict (q : Vec) (vecs : List Vec) :
    (sortedScored q vecs).Pairwise
      (fun a b => a.1 < b.1 ∨ (a.1 = b.1 ∧ a.2 < b.2)) := by
  have h1 := sortedScored_sorted q vecs
  have h2 := sortedScored_pos_ne q vecs
  refine (List.Pairwise.and h1 h2).imp ?_
  rintro a b ⟨hle, hne⟩
  rcases hle with h | ⟨h, h'⟩
  · exact Or.inl h
  · exact Or.inr ⟨h, lt_of_le_of_ne h' hne⟩

theorem faissTopK_eq_of_le (index : FaissIndex) (q : Vec) (k : Nat)
    (hk : k ≤ index.vecs.length) :
    faissTopK index q k =
      ((sortedScored q index.vecs).take k).map
        (fun pr => (pr.1, (pr.2 : Int))) := by
  unfold faissTopK
  have hlen : (sortedScored q index.vecs).length = index.vecs.length :=
    sortedScored_length q index.vecs
  rw [show k - (sortedScored q index.vecs).length = 0 by omega]
  simp

theorem faissTopK_spec_of_le (index : FaissIndex) (q : Vec) (k : Nat)
    (hk : k ≤ index.vecs.length) :
    (faissTopK index q k).length = k ∧
    (faissTopK index q k).Pairwise
      (fun a b => a.1 < b.1 ∨ (a.1 = b.1 ∧ a.2 < b.2)) ∧
    ∀ pr ∈ faissTopK index q k, 0 ≤ pr.2 ∧
      pr.2.toNat < index.vecs.length ∧
      pr.1 = sqDist q (index.vecs.getD pr.2.toNat []) := by
  rw [faissTopK_eq_of_le index q k hk]
  refine ⟨?_, ?_, ?_⟩
  · rw [List.length_map, List.length_take, sortedScored_length]
    omega
  · rw [List.pairwise_map]
    have hstrict : (sortedScored q index.vecs).Pairwise
        (fun a b => a.1 < b.1 ∨ (a.1 = b.1 ∧ a.2 < b.2)) :=
      sortedScored_pairwise_strict q index.vecs
    have htake : ((sortedScored q index.vecs).take k).Pairwise
        (fun a b => a.1 < b.1 ∨ (a.1 = b.1 ∧ a.2 < b.2)) :=
      hstrict.sublist (List.take_sublist k _)
    refine htake.imp ?_
    rintro a b (h | ⟨h, h'⟩)
    · exact Or.inl h
    · exact Or.inr ⟨h, by simpa using Int.ofNat_lt.mpr h'⟩
  · intro pr hpr
    obtain ⟨pr0, hpr0, rfl⟩ := List.mem_map.mp hpr
    have hmem : pr0 ∈ sortedScored q index.vecs :=
      List.take_subset k _ hpr0
    obtain ⟨hlt, hdist⟩ := sortedScored_mem q index.vecs pr0 hmem
    refine ⟨Int.ofNat_nonneg pr0.2, ?_, ?_⟩
    · simpa using hlt
    · simpa using hdist

theorem pyGet_of_nonneg (xs : List α) (i : Int) (d : α) (h0 : 0 ≤ i)
    (h : i.toNat < xs.length) :
    pyGet xs i = some (xs.getD i.toNat d) := by
  unfold pyGet
  rw [if_pos h0, List.getElem?_eq_getElem h, List.getD_eq_getElem xs d h]

theorem pyGet_neg_one (xs : List α) (d : α) (h : xs ≠ []) :
    pyGet xs (-1) = some (xs.getD (xs.length - 1) d) := by
  unfold pyGet
  have hlen : 1 ≤ xs.length := List.length_pos.mpr h
  rw [if_neg (by decide)]
  have h0 : (0 : Int) ≤ (xs.length : Int) + (-1) := by omega
  rw [if_pos h0]
  have htn : ((xs.length : Int) + (-1)).toNat = xs.length - 1 := by omega
  have hlt : xs.length - 1 < xs.length := by omega
  rw [htn, List.getElem?_eq_getElem hlt, List.getD_eq_getElem xs d hlt]

theorem joinResults_ok_of_inRange (docs : List String)
    (paths : List (String × String)) (prs : List (ℚ × Int))
    (h : ∀ pr ∈ prs, 0 ≤ pr.2 ∧ pr.2.toNat < docs.length ∧
      pr.2.toNat < paths.length) :
    joinResults docs paths prs = .ok (prs.map (rowJoin docs paths)) := by
  induction prs with
  | nil => rfl
  | cons pr rest ih =>
    obtain ⟨h0, hd, hp⟩ := h pr (List.mem_cons_self pr rest)
    have hrest := fun x hx => h x (List.mem_cons_of_mem pr hx)
    obtain ⟨dist, idx⟩ := pr
    simp only [joinResults]
    rw [pyGet_of_nonneg paths idx ("", "") h0 hp,
      pyGet_of_nonneg docs idx "" h0 hd, ih hrest]
    simp [rowJoin]

theorem joinResults_append (docs : List String)
    (paths : List (String × String)) (l1 l2 : List (ℚ × Int))
    (r1 r2 : List SearchResult)
    (h1 : joinResults docs paths l1 = .ok r1)
    (h2 : joinResults docs paths l2 = .ok r2) :
    joinResults docs paths (l1 ++ l2) = .ok (r1 ++ r2) := by
  induction l1 generalizing r1 with
  | nil =>
    simp only [joinResults] at h1
    cases h1
    simpa using h2
  | cons pr rest ih =>
    obtain ⟨dist, idx⟩ := pr
    simp only [joinResults] at h1 ⊢
    cases hp : pyGet paths idx with
    | none => rw [hp] at h1; exact absurd h1 (by simp)
    | some tc =>
      rw [hp] at h1
      cases hd : pyGet docs idx with
      | none => rw [hd] at h1; exact absurd h1 (by simp)
      | some d =>
        rw [hd] at h1
        cases hr : joinResults docs paths rest with
        | error e => rw [hr] at h1; exact absurd h1 (by simp)
        | ok rs =>
          rw [hr] at h1
          simp only [Except.ok.injEq] at h1
          subst h1
          rw [List.cons_append]
          simp only [joinResults, hp, hd, List.append_eq, ih rs hr]

theorem joinResults_replicate (docs : List String)
    (paths : List (String × String)) (m : Nat) (c : ℚ)
    (hdocs : docs ≠ []) (hpaths : paths ≠ []) :
    joinResults docs paths (List.replicate m (c, (-1 : Int))) =
      .ok (List.replicate m
        { distance := c, doc := docs.getD (docs.length - 1) "",
          table := (paths.getD (paths.length - 1) ("", "")).1,
          column := (paths.getD (paths.length - 1) ("", "")).2 }) := by
  induction m with
  | zero => rfl
  | succ m ih =>
    rw [List.replicate_succ, List.replicate_succ]
    simp only [joinResults, pyGet_neg_one paths ("", "") hpaths,
      pyGet_neg_one docs "" hdocs, ih]

theorem replicate_getD {α : Type} (m j : Nat) (x d : α) (h : j < m) :
    (List.replicate m x).getD j d = x := by
  induction m generalizing j with
  | zero => omega
  | succ m ih =>
    cases j with
    | zero => simp [List.replicate_succ]
    | succ j =>
      rw [List.replicate_succ, List.getD_cons_succ]
      exact ih j (by omega)

theorem faissSearch_ok (index : FaissIndex) (q : Vec) (k : Nat)
    (hd : q.length = index.d) (hk : 0 < k) :
    faissSearch index q k = .ok (faissTopK index q k) := by
  unfold faissSearch
  rw [if_neg (show ¬ q.length ≠ index.d from fun h => h hd),
    if_neg (by omega)]

theorem semanticSearch_ok_of_le (index : FaissIndex) (q : Vec) (k : Nat)
    (docs : List String) (paths : List (String × String))
    (hd : q.length = index.d) (hk : 0 < k) (hkN : k ≤ index.vecs.length)
    (hdocs : docs.length = index.vecs.length)
    (hpaths : paths.length = index.vecs.length) :
    semanticSearch q k index docs paths =
      .ok ((faissTopK index q k).map (rowJoin docs paths)) := by
  obtain ⟨hlen, hpair, hmem⟩ := faissTopK_spec_of_le index q k hkN
  simp only [semanticSearch, faissSearch_ok index q k hd hk]
  refine joinResults_ok_of_inRange docs paths _ (fun pr hpr => ?_)
  obtain ⟨h0, hlt, _⟩ := hmem pr hpr
  exact ⟨h0, by omega, by omega⟩

theorem semanticSearch_overrun_spec (index : FaissIndex) (q : Vec) (k : Nat)
    (docs : List String) (paths : List (String × String))
    (hd : q.length = index.d) (hN : 1 ≤ index.vecs.length)
    (hk : index.vecs.length < k)
    (hdocs : docs.length = index.vecs.length)
    (hpaths : paths.length = index.vecs.length) :
    faissTopK index q k =
      ((sortedScored q index.vecs).map (fun pr => (pr.1, (pr.2 : Int))))
        ++ List.replicate (k - index.vecs.length)
          (sentinelDist, (-1 : Int)) ∧
    semanticSearch q k index docs paths =
      .ok ((((sortedScored q index.vecs).map
          (fun pr => (pr.1, (pr.2 : Int)))).map (rowJoin docs paths))
        ++ List.replicate (k - index.vecs.length) (padRow docs paths)) := by
  have hslen : (sortedScored q index.vecs).length = index.vecs.length :=
    sortedScored_length q index.vecs
  have htake : (sortedScored q index.vecs).take k = sortedScored q index.vecs :=
    List.take_of_length_le (by omega)
  have htopk : faissTopK index q k =
      ((sortedScored q index.vecs).map (fun pr => (pr.1, (pr.2 : Int))))
        ++ List.replicate (k - index.vecs.length)
          (sentinelDist, (-1 : Int)) := by
    unfold faissTopK
    rw [htake, hslen]
  refine ⟨htopk, ?_⟩
  have hdocs_ne : docs ≠ [] := by
    intro h
    rw [h] at hdocs
    simp at hdocs
    omega
  have hpaths_ne : paths ≠ [] := by
    intro h
    rw [h] at hpaths
    simp at hpaths
    omega
  have h1 : joinResults docs paths
      ((sortedScored q index.vecs).map (fun pr => (pr.1, (pr.2 : Int)))) =
      .ok (((sortedScored q index.vecs).map
        (fun pr => (pr.1, (pr.2 : Int)))).map (rowJoin docs paths)) := by
    refine joinResults_ok_of_inRange docs paths _ (fun pr hpr => ?_)
    obtain ⟨pr0, hpr0, rfl⟩ := List.mem_map.mp hpr
    obtain ⟨hlt, _⟩ := sortedScored_mem q index.vecs pr0 hpr0
    refine ⟨Int.ofNat_nonneg pr0.2, ?_, ?_⟩
    · simp only [Int.toNat_ofNat]
      omega
    · simp only [Int.toNat_ofNat]
      omega
  have h2 : joinResults docs paths
      (List.replicate (k - index.vecs.length) (sentinelDist, (-1 : Int))) =
      .ok (List.replicate (k - index.vecs.length) (padRow docs paths)) := by
    rw [joinResults_replicate docs paths _ sentinelDist hdocs_ne hpaths_ne]
    rfl
  simp only [semanticSearch,
    faissSearch_ok index q k hd (by omega), htopk]
  exact joinResults_append docs paths _ _ _ _ h1 h2

/-- C1: for every query vector of the index's dimensionality and every k
with 0 < k ≤ number of stored vectors, `semantic_search` succeeds and its
output is exactly the FAISS (distance, position) rows joined, rank by rank,
with the metadata stored at the producing position: the result at rank j
whose distance came from position p carries docs[p] and paths[p] (the
record `rowJoin docs paths` builds from position p), and every producing
position is in range. -/
theorem semantic_search_alignment (index : FaissIndex) (q : Vec) (k : Nat)
    (docs : List String) (paths : List (String × String))
    (hd : q.length = index.d) (hk : 0 < k) (hkN : k ≤ index.vecs.length)
    (hdocs : docs.length = index.vecs.length)
    (hpaths : paths.length = index.vecs.length) :
    semanticSearch q k index docs paths =
      .ok ((faissTopK index q k).map (rowJoin docs paths)) ∧
    ∀ pr ∈ faissTopK index q k, 0 ≤ pr.2 ∧
      pr.2.toNat < index.vecs.length :=
  ⟨semanticSearch_ok_of_le index q k docs paths hd hk hkN hdocs hpaths,
   fun pr hpr =>
     ⟨((faissTopK_spec_of_le index q k hkN).2.2 pr hpr).1,
      ((faissTopK_spec_of_le index q k hkN).2.2 pr hpr).2.1⟩⟩

/-- Witness for C1 at the specification's scenario index with query [0,0]
and k = 2. -/
theorem semantic_search_alignment_witness :
    ([(0 : ℚ), 0].length = exIndex3.d ∧ 0 < 2 ∧
      2 ≤ exIndex3.vecs.length ∧
      exDocs3.length = exIndex3.vecs.length ∧
      exPaths3.length = exIndex3.vecs.length) ∧
    (semanticSearch [0, 0] 2 exIndex3 exDocs3 exPaths3 =
      .ok ((faissTopK exIndex3 [0, 0] 2).map (rowJoin exDocs3 exPaths3)) ∧
    ∀ pr ∈ faissTopK exIndex3 [0, 0] 2, 0 ≤ pr.2 ∧
      pr.2.toNat < exIndex3.vecs.length) :=
  ⟨⟨by decide, by decide, by decide, by decide, by decide⟩,
   semantic_search_alignment exIndex3 [0, 0] 2 exDocs3 exPaths3
     (by decide) (by decide) (by decide) (by decide) (by decide)⟩

/-- C2: for every index holding N vectors, every query of the index's
dimensionality and every k with 0 < k ≤ N, the index search returns exactly
k (distance, position) rows, each distance being the squared Euclidean
distance from the query to the vector at that position, ordered by
non-decreasing distance with equal distances resolved by the lower position
first (pairwise: earlier row has smaller distance, or equal distance and
strictly smaller position). -/
theorem search_topk_sorted (index : FaissIndex) (q : Vec) (k : Nat)
    (hd : q.length = index.d) (hk : 0 < k)
    (hkN : k ≤ index.vecs.length) :
    ∃ rs, faissSearch index q k = .ok rs ∧ rs.length = k ∧
      rs.Pairwise (fun a b => a.1 < b.1 ∨ (a.1 = b.1 ∧ a.2 < b.2)) ∧
      ∀ pr ∈ rs, 0 ≤ pr.2 ∧ pr.2.toNat < index.vecs.length ∧
        pr.1 = sqDist q (index.vecs.getD pr.2.toNat []) := by
  obtain ⟨h1, h2, h3⟩ := faissTopK_spec_of_le index q k hkN
  exact ⟨faissTopK index q k, faissSearch_ok index q k hd hk, h1, h2, h3⟩

/-- Witness for C2 at the specification's scenario index with query [0,0]
and k = 2. -/
theorem search_topk_sorted_witness :
    ([(0 : ℚ), 0].length = exIndex3.d ∧ 0 < 2 ∧
      2 ≤ exIndex3.vecs.length) ∧
    (∃ rs, faissSearch exIndex3 [0, 0] 2 = .ok rs ∧ rs.length = 2 ∧
      rs.Pairwise (fun a b => a.1 < b.1 ∨ (a.1 = b.1 ∧ a.2 < b.2)) ∧
      ∀ pr ∈ rs, 0 ≤ pr.2 ∧ pr.2.toNat < exIndex3.vecs.length ∧
        pr.1 = sqDist [0, 0] (exIndex3.vecs.getD pr.2.toNat [])) :=
  ⟨⟨by decide, by decide, by decide⟩,
   search_topk_sorted exIndex3 [0, 0] 2 (by decide) (by decide)
     (by decide)⟩

/-- C6: for every non-empty batch of embedding vectors of one
dimensionality D, `build_faiss_index` succeeds with an index whose stored
vector list is exactly the input batch (so its size equals the input
length, position i holds input vector i, and the input itself is
unchanged), and whose dimensionality is D. -/
theorem build_index_order_preserving (embeddings : List Vec) (D : Nat)
    (hne : embeddings ≠ []) (hdim : ∀ v ∈ embeddings, v.length = D) :
    ∃ index, buildFaissIndex embeddings = .ok index ∧
      index.vecs = embeddings ∧
      index.vecs.length = embeddings.length ∧ index.d = D := by
  cases embeddings with
  | nil => exact absurd rfl hne
  | cons v vs =>
    have hv : v.length = D := hdim v (List.mem_cons_self v vs)
    have hall : (v :: vs).all (fun w => w.length == v.length) = true := by
      rw [List.all_eq_true]
      intro w hw
      have : w.length = D := hdim w hw
      simp [this, hv]
    refine ⟨{ d := v.length, vecs := v :: vs }, ?_, rfl, rfl, hv⟩
    simp only [buildFaissIndex]
    rw [if_pos hall]

/-- Witness for C6 at the specification's scenario batch. -/
theorem build_index_order_preserving_witness :
    (([[0, 0], [1, 0], [0, 5]] : List Vec) ≠ [] ∧
      ∀ v ∈ ([[0, 0], [1, 0], [0, 5]] : List Vec), v.length = 2) ∧
    (∃ index, buildFaissIndex [[0, 0], [1, 0], [0, 5]] = .ok index ∧
      index.vecs = [[0, 0], [1, 0], [0, 5]] ∧
      index.vecs.length = ([[0, 0], [1, 0], [0, 5]] : List Vec).length ∧
      index.d = 2) :=
  ⟨⟨by decide, by decide⟩,
   build_index_order_preserving [[0, 0], [1, 0], [0, 5]] 2 (by decide)
     (by decide)⟩

/-- C9: semantic search is deterministic: two calls with the same query
vector, the same index contents, the same k and the same metadata columns
return identical result sequences (the model is a pure function of these
inputs; the code keeps no other state and uses no randomness). -/
theorem semantic_search_deterministic (q1 q2 : Vec) (k1 k2 : Nat)
    (i1 i2 : FaissIndex) (d1 d2 : List String)
    (p1 p2 : List (String × String))
    (hq : q1 = q2) (hk : k1 = k2) (hi : i1 = i2) (hd : d1 = d2)
    (hp : p1 = p2) :
    semanticSearch q1 k1 i1 d1 p1 = semanticSearch q2 k2 i2 d2 p2 := by
  subst hq hk hi hd hp
  rfl

/-- Witness for C9 at the scenario index. -/
theorem semantic_search_deterministic_witness :
    (([(0 : ℚ), 0] : Vec) = [0, 0] ∧ (2 : Nat) = 2 ∧
      exIndex3 = exIndex3 ∧ exDocs3 = exDocs3 ∧ exPaths3 = exPaths3) ∧
    semanticSearch [0, 0] 2 exIndex3 exDocs3 exPaths3 =
      semanticSearch [0, 0] 2 exIndex3 exDocs3 exPaths3 :=
  ⟨⟨rfl, rfl, rfl, rfl, rfl⟩,
   semantic_search_deterministic [0, 0] [0, 0] 2 2 exIndex3 exIndex3
     exDocs3 exDocs3 exPaths3 exPaths3 rfl rfl rfl rfl rfl⟩

/-- C4: round-trip: for every file system, index, well-formed metadata
table and path, loading what save wrote at that path yields the metadata
table unchanged and an index of the same size whose search results agree
with the original for every probe query, every k and every metadata
join. -/
theorem save_load_round_trip (fs : FileSys) (index : FaissIndex)
    (tbl : MetaTable) (path : String)
    (h1 : tbl.tableName.length = tbl.doc.length)
    (h2 : tbl.columnName.length = tbl.doc.length) :
    ∃ tbl2 index2,
      loadIndex (saveIndex index tbl path fs) path = .ok (tbl2, index2) ∧
      tbl2 = tbl ∧ index2.vecs.length = index.vecs.length ∧
      (∀ q k, faissSearch index2 q k = faissSearch index q k) ∧
      ∀ q k docs paths, semanticSearch q k index2 docs paths =
        semanticSearch q k index docs paths := by
  refine ⟨tbl, index, ?_, rfl, rfl, fun _ _ => rfl, fun _ _ _ _ => rfl⟩
  have hsaved : saveIndex index tbl path fs path =
      some (.valid index tbl) := by
    unfold saveIndex
    rw [if_pos rfl]
  simp only [loadIndex, hsaved]
  rw [if_pos ⟨h1, h2⟩]

/-- Witness for C4 at the scenario index and table over the empty file
system. -/
theorem save_load_round_trip_witness :
    (exTable3.tableName.length = exTable3.doc.length ∧
      exTable3.columnName.length = exTable3.doc.length) ∧
    (∃ tbl2 index2,
      loadIndex (saveIndex exIndex3 exTable3 "p" exFsEmpty) "p" =
        .ok (tbl2, index2) ∧
      tbl2 = exTable3 ∧ index2.vecs.length = exIndex3.vecs.length ∧
      (∀ q k, faissSearch index2 q k = faissSearch exIndex3 q k) ∧
      ∀ q k docs paths, semanticSearch q k index2 docs paths =
        semanticSearch q k exIndex3 docs paths) :=
  ⟨⟨by decide, by decide⟩,
   save_load_round_trip exFsEmpty exIndex3 exTable3 "p" (by decide)
     (by decide)⟩

/-- C10: for every index holding N ≥ 1 vectors and every k > N, the FAISS
search pads its rows with sentinel position -1, and the join of
`semantic_search` indexes docs and paths with that -1, which under Python
negative indexing selects the last row: the call returns, without raising,
a list of length k whose entries beyond the first N all carry the metadata
of row N-1 (`padRow`, built from `docs[N-1]` and `paths[N-1]`). -/
theorem semantic_search_overrun_last_row (index : FaissIndex) (q : Vec)
    (k : Nat) (docs : List String) (paths : List (String × String))
    (hd : q.length = index.d) (hN : 1 ≤ index.vecs.length)
    (hk : index.vecs.length < k)
    (hdocs : docs.length = index.vecs.length)
    (hpaths : paths.length = index.vecs.length) :
    faissTopK index q k =
      ((sortedScored q index.vecs).map (fun pr => (pr.1, (pr.2 : Int))))
        ++ List.replicate (k - index.vecs.length)
          (sentinelDist, (-1 : Int)) ∧
    padRow docs paths =
      { distance := sentinelDist,
        doc := docs.getD (index.vecs.length - 1) "",
        table := (paths.getD (index.vecs.length - 1) ("", "")).1,
        column := (paths.getD (index.vecs.length - 1) ("", "")).2 } ∧
    ∃ genuine, semanticSearch q k index docs paths =
        .ok (genuine ++ List.replicate (k - index.vecs.length)
          (padRow docs paths)) ∧
      genuine.length = index.vecs.length ∧
      genuine.length + (k - index.vecs.length) = k := by
  obtain ⟨htop, hss⟩ :=
    semanticSearch_overrun_spec index q k docs paths hd hN hk hdocs hpaths
  refine ⟨htop, ?_, _, hss, ?_, ?_⟩
  · unfold padRow
    rw [hdocs, hpaths]
  · rw [List.length_map, List.length_map, sortedScored_length]
  · rw [List.length_map, List.length_map, sortedScored_length]
    omega

/-- Witness for C10 at the one-vector index with k = 3. -/
theorem semantic_search_overrun_last_row_witness :
    ([(0 : ℚ)].length = exIndex1.d ∧ 1 ≤ exIndex1.vecs.length ∧
      exIndex1.vecs.length < 3 ∧
      exDocs1.length = exIndex1.vecs.length ∧
      exPaths1.length = exIndex1.vecs.length) ∧
    (faissTopK exIndex1 [0] 3 =
      ((sortedScored [0] exIndex1.vecs).map
          (fun pr => (pr.1, (pr.2 : Int))))
        ++ List.replicate (3 - exIndex1.vecs.length)
          (sentinelDist, (-1 : Int)) ∧
    padRow exDocs1 exPaths1 =
      { distance := sentinelDist,
        doc := exDocs1.getD (exIndex1.vecs.length - 1) "",
        table := (exPaths1.getD (exIndex1.vecs.length - 1) ("", "")).1,
        column := (exPaths1.getD (exIndex1.vecs.length - 1) ("", "")).2 } ∧
    ∃ genuine, semanticSearch [0] 3 exIndex1 exDocs1 exPaths1 =
        .ok (genuine ++ List.replicate (3 - exIndex1.vecs.length)
          (padRow exDocs1 exPaths1)) ∧
      genuine.length = exIndex1.vecs.length ∧
      genuine.length + (3 - exIndex1.vecs.length) = 3) :=
  ⟨⟨by decide, by decide, by decide, by decide, by decide⟩,
   semantic_search_overrun_last_row exIndex1 [0] 3 exDocs1 exPaths1
     (by decide) (by decide) (by decide) (by decide) (by decide)⟩

/-- Counterexample to C3: a bundle holding 5 vectors and a 4-row metadata
table loads successfully and returns the pair; it does not fail with
CorruptBundleError (nor any other error). -/
theorem load_no_count_check_cex :
    loadIndex exFs54 "vector_index.faiss" = .ok (exTable4, exIndex5) ∧
    exIndex5.vecs.length = 5 ∧ exTable4.doc.length = 4 ∧
    loadIndex exFs54 "vector_index.faiss" ≠
      .error .corruptBundleError := by
  refine ⟨by decide, rfl, rfl, by decide⟩

/-- C3 as amended: `load_index` fails with the built-in FileNotFoundError
when no file exists at the path, with UnpicklingError when the bundle
cannot be parsed, and with KeyError when a required field is missing; it
performs no vector-count/metadata-row-count comparison, so any parseable
bundle with both fields and length-consistent metadata columns loads
successfully regardless of how many vectors the index holds. -/
theorem load_errors_amended (fs : FileSys) (path : String) :
    (fs path = none → loadIndex fs path = .error .fileNotFoundError) ∧
    (fs path = some .unparseable →
      loadIndex fs path = .error .unpicklingError) ∧
    (∀ tbl, fs path = some (.missingIndexKey tbl) →
      loadIndex fs path = .error .keyError) ∧
    (∀ index, fs path = some (.missingMetadataKey index) →
      loadIndex fs path = .error .keyError) ∧
    (∀ index tbl, fs path = some (.valid index tbl) →
      tbl.tableName.length = tbl.doc.length →
      tbl.columnName.length = tbl.doc.length →
      loadIndex fs path = .ok (tbl, index)) := by
  refine ⟨?_, ?_, ?_, ?_, ?_⟩
  · intro h
    simp only [loadIndex, h]
  · intro h
    simp only [loadIndex, h]
  · intro tbl h
    simp only [loadIndex, h]
  · intro index h
    simp only [loadIndex, h]
  · intro index tbl h h1 h2
    simp only [loadIndex, h]
    rw [if_pos ⟨h1, h2⟩]

/-- Witness for the amended C3: a missing path raises FileNotFoundError,
and the 5-vector/4-row bundle loads successfully. -/
theorem load_errors_amended_witness :
    (exFsEmpty "x" = none ∧
      loadIndex exFsEmpty "x" = .error .fileNotFoundError) ∧
    (exFs54 "vector_index.faiss" = some (.valid exIndex5 exTable4) ∧
      exTable4.tableName.length = exTable4.doc.length ∧
      exTable4.columnName.length = exTable4.doc.length ∧
      loadIndex exFs54 "vector_index.faiss" = .ok (exTable4, exIndex5)) :=
  ⟨⟨rfl, (load_errors_amended exFsEmpty "x").1 rfl⟩,
   ⟨by decide, by decide, by decide,
    (load_errors_amended exFs54 "vector_index.faiss").2.2.2.2 exIndex5
      exTable4 (by decide) (by decide) (by decide)⟩⟩

/-- Counterexample to C5: on a one-vector index, `semantic_search` with
k = 2 succeeds and returns two entries (the second a sentinel join of the
last row), not the one available result the claim requires. -/
theorem search_k_exceeds_cex :
    exIndex1.vecs.length = 1 ∧
    (semanticSearch [(0 : ℚ)] 2 exIndex1 exDocs1 exPaths1).map
      List.length = .ok 2 ∧
    (semanticSearch [(0 : ℚ)] 2 exIndex1 exDocs1 exPaths1).map
      List.length ≠ .ok 1 := by
  obtain ⟨_, hss⟩ :=
    semanticSearch_overrun_spec exIndex1 [0] 2 exDocs1 exPaths1
      (by decide) (by decide) (by decide) (by decide) (by decide)
  have hlen : (semanticSearch [(0 : ℚ)] 2 exIndex1 exDocs1 exPaths1).map
      List.length = .ok 2 := by
    rw [hss]
    simp only [Except.map, List.length_append, List.length_map,
      List.length_replicate, sortedScored_length]
    rfl
  refine ⟨rfl, hlen, ?_⟩
  rw [hlen]
  decide

/-- C5 as amended: the repository defines no DimensionMismatchError or
InvalidKError; a query of the wrong dimensionality and k = 0 both fail
with the underlying library's AssertionError, and when k exceeds the
number N of stored vectors the call succeeds and returns exactly k entries
(the N genuine results plus k - N sentinel padding entries), not N. -/
theorem search_validation_amended (index : FaissIndex) (q : Vec) (k : Nat)
    (docs : List String) (paths : List (String × String)) :
    (q.length ≠ index.d →
      semanticSearch q k index docs paths = .error .assertionError) ∧
    (q.length = index.d →
      semanticSearch q 0 index docs paths = .error .assertionError) ∧
    (q.length = index.d → 1 ≤ index.vecs.length → index.vecs.length < k →
      docs.length = index.vecs.length →
      paths.length = index.vecs.length →
      ∃ rs, semanticSearch q k index docs paths = .ok rs ∧
        rs.length = k) := by
  refine ⟨?_, ?_, ?_⟩
  · intro hne
    simp only [semanticSearch, faissSearch, if_pos hne]
  · intro hd
    have h1 : faissSearch index q 0 = .error .assertionError := by
      unfold faissSearch
      rw [if_neg (show ¬ q.length ≠ index.d from fun h => h hd),
        if_pos rfl]
    simp only [semanticSearch, h1]
  · intro hd hN hk hdocs hpaths
    obtain ⟨_, hss⟩ :=
      semanticSearch_overrun_spec index q k docs paths hd hN hk hdocs
        hpaths
    refine ⟨_, hss, ?_⟩
    rw [List.length_append, List.length_map, List.length_map,
      sortedScored_length, List.length_replicate]
    omega

/-- Witness for the amended C5: wrong dimensionality asserts, k = 0
asserts, and k = 3 on a one-vector index returns three entries. -/
theorem search_validation_amended_witness :
    (([(0 : ℚ), 0] : Vec).length ≠ exIndex1.d ∧
      semanticSearch [0, 0] 2 exIndex1 exDocs1 exPaths1 =
        .error .assertionError) ∧
    (([(0 : ℚ)] : Vec).length = exIndex1.d ∧
      semanticSearch [0] 0 exIndex1 exDocs1 exPaths1 =
        .error .assertionError) ∧
    (∃ rs, semanticSearch [0] 3 exIndex1 exDocs1 exPaths1 = .ok rs ∧
      rs.length = 3) :=
  ⟨⟨by decide, (search_validation_amended exIndex1 [0, 0] 2 exDocs1
      exPaths1).1 (by decide)⟩,
   ⟨by decide, (search_validation_amended exIndex1 [0] 0 exDocs1
      exPaths1).2.1 (by decide)⟩,
   (search_validation_amended exIndex1 [0] 3 exDocs1 exPaths1).2.2
     (by decide) (by decide) (by decide) (by decide) (by decide)⟩

/-- Counterexample to C7: `build_faiss_index` on the empty batch fails
with IndexError (the shape access), not EmptyInputError, and on a ragged
batch fails with ValueError, not DimensionMismatchError. -/
theorem build_validation_cex :
    buildFaissIndex [] = .error .indexError ∧
    buildFaissIndex [] ≠ .error .emptyInputError ∧
    buildFaissIndex [[(0 : ℚ)], [0, 0]] = .error .valueError ∧
    buildFaissIndex [[(0 : ℚ)], [0, 0]] ≠
      .error .dimensionMismatchError := by
  refine ⟨rfl, by decide, by decide, by decide⟩

/-- C7 as amended: build does fail on the empty batch and on mixed
dimensionalities, but with the underlying IndexError and ValueError rather
than typed EmptyInputError/DimensionMismatchError (which the code never
defines); no partial index is produced on failure, and any produced index
holds exactly the full input. -/
theorem build_validation_amended (embeddings : List Vec) :
    (embeddings = [] → buildFaissIndex embeddings = .error .indexError) ∧
    (∀ v w, v ∈ embeddings → w ∈ embeddings → v.length ≠ w.length →
      buildFaissIndex embeddings = .error .valueError) ∧
    (∀ index, buildFaissIndex embeddings = .ok index →
      index.vecs = embeddings) := by
  refine ⟨?_, ?_, ?_⟩
  · rintro rfl
    rfl
  · intro v w hv hw hne
    cases embeddings with
    | nil => exact absurd hv (List.not_mem_nil v)
    | cons a t =>
      have hall :
          ¬ ((a :: t).all (fun w => w.length == a.length) = true) := by
        intro hall
        rw [List.all_eq_true] at hall
        have h1 := hall v hv
        have h2 := hall w hw
        simp only [beq_iff_eq] at h1 h2
        exact hne (h1.trans h2.symm)
      simp only [buildFaissIndex]
      rw [if_neg hall]
  · intro index hok
    cases embeddings with
    | nil => exact absurd hok (by simp [buildFaissIndex])
    | cons a t =>
      simp only [buildFaissIndex] at hok
      by_cases hall : (a :: t).all (fun w => w.length == a.length) = true
      · rw [if_pos hall] at hok
        cases hok
        rfl
      · rw [if_neg hall] at hok
        cases hok

/-- Witness for the amended C7 at the empty and a ragged batch. -/
theorem build_validation_amended_witness :
    (([] : List Vec) = [] ∧
      buildFaissIndex [] = .error .indexError) ∧
    ([(0 : ℚ)] ∈ ([[(0 : ℚ)], [0, 0]] : List Vec) ∧
      [(0 : ℚ), 0] ∈ ([[(0 : ℚ)], [0, 0]] : List Vec) ∧
      [(0 : ℚ)].length ≠ [(0 : ℚ), 0].length ∧
      buildFaissIndex [[(0 : ℚ)], [0, 0]] = .error .valueError) :=
  ⟨⟨rfl, (build_validation_amended []).1 rfl⟩,
   ⟨by decide, by decide, by decide,
    (build_validation_amended [[(0 : ℚ)], [0, 0]]).2.1 [(0 : ℚ)]
      [(0 : ℚ), 0] (by decide) (by decide) (by decide)⟩⟩

/-- Counterexample to C8: with a complete bundle already at the
destination, a failure during the write leaves a truncated partial file,
not the prior content and not a complete bundle: `save_index` opens the
destination with mode wb (truncating it) before serializing. -/
theorem save_not_atomic_cex :
    saveIndexRun exIndex3 exTable3 (.bundle exIndex3 exTable3) (some 0) =
      (.error .ioError, .truncatedBytes 0) ∧
    (saveIndexRun exIndex3 exTable3 (.bundle exIndex3 exTable3)
      (some 0)).2 ≠ .bundle exIndex3 exTable3 ∧
    (saveIndexRun exIndex3 exTable3 (.bundle exIndex3 exTable3)
      (some 0)).2 ≠ DestContent.absent := by
  refine ⟨rfl, by decide, by decide⟩

/-- C8 as amended: on success `save_index` leaves the complete bundle at
the destination, overwriting any prior content; but on a failure during
serialization or writing the destination holds a truncated partial write —
the prior content is already gone, so the operation is not atomic. -/
theorem save_overwrite_amended (index : FaissIndex) (tbl : MetaTable)
    (old : DestContent) :
    saveIndexRun index tbl old none = (.ok (), .bundle index tbl) ∧
    ∀ n, saveIndexRun index tbl old (some n) =
      (.error .ioError, .truncatedBytes n) :=
  ⟨rfl, fun _ => rfl⟩
